/-
  Verification of the Time-Value-of-Money (TVM) solver implemented in
  src/components/calculators/TimeValueMoneyCalculator.tsx.

  JavaScript numbers are modelled by the type `JS`: a finite real value,
  a signed infinity, or NaN.  This is the usual real-valued idealization
  of IEEE doubles: rounding is ignored (finite values are exact reals)
  and the negative zero is conflated with zero, but the special values
  NaN and the two infinities, and their propagation through the
  arithmetic operators and through Math.pow / Math.log / Math.abs, are
  modelled following the ECMAScript semantics.  In particular
  x / 0 is a signed infinity (NaN for 0 / 0), Math.log of a negative
  number is NaN, Math.log 0 is negative infinity, Math.pow (x, 0) = 1
  for every x including NaN, and every comparison with NaN is false.
-/
import Mathlib

namespace TVMCalc

open Classical

/-- Model of a JavaScript number: a finite real, a signed infinity
(`inf true` is positive infinity, `inf false` negative infinity), or NaN. -/
inductive JS where
  | fin : ℝ → JS
  | inf : Bool → JS
  | nan : JS

/-- A JS value is finite when it is neither NaN nor an infinity. -/
def JS.isFinite : JS → Prop
  | .fin _ => True
  | _ => False

/-- JS unary minus. -/
noncomputable def jneg : JS → JS
  | .fin a => .fin (-a)
  | .inf s => .inf (!s)
  | .nan => .nan

/-- JS addition. -/
noncomputable def jadd : JS → JS → JS
  | .nan, _ => .nan
  | _, .nan => .nan
  | .fin a, .fin b => .fin (a + b)
  | .fin _, .inf s => .inf s
  | .inf s, .fin _ => .inf s
  | .inf s, .inf t => if s = t then .inf s else .nan

/-- JS subtraction, as addition of the negation. -/
noncomputable def jsub (x y : JS) : JS := jadd x (jneg y)

/-- JS multiplication. -/
noncomputable def jmul : JS → JS → JS
  | .nan, _ => .nan
  | _, .nan => .nan
  | .fin a, .fin b => .fin (a * b)
  | .fin a, .inf s => if a = 0 then .nan else if 0 < a then .inf s else .inf (!s)
  | .inf s, .fin a => if a = 0 then .nan else if 0 < a then .inf s else .inf (!s)
  | .inf s, .inf t => .inf (s == t)

/-- JS division.  Division of a nonzero finite value by zero gives a
signed infinity (the divisor zero is treated as positive zero, since the
negative zero is not modelled); 0 / 0 is NaN. -/
noncomputable def jdiv : JS → JS → JS
  | .nan, _ => .nan
  | _, .nan => .nan
  | .fin a, .fin b =>
      if b = 0 then (if a = 0 then .nan else if 0 < a then .inf true else .inf false)
      else .fin (a / b)
  | .fin _, .inf _ => .fin 0
  | .inf s, .fin b => if b = 0 then .inf s else if 0 < b then .inf s else .inf (!s)
  | .inf _, .inf _ => .nan

/-- JS Math.abs. -/
noncomputable def jabs : JS → JS
  | .fin a => .fin |a|
  | .inf _ => .inf true
  | .nan => .nan

/-- JS Math.log: NaN on negative arguments and on NaN, negative infinity
at zero, positive infinity at positive infinity. -/
noncomputable def jlog : JS → JS
  | .nan => .nan
  | .inf s => if s then .inf true else .nan
  | .fin a => if 0 < a then .fin (Real.log a) else if a = 0 then .inf false else .nan

/-- The exponent is an integer. -/
def isIntR (b : ℝ) : Prop := ∃ k : ℤ, (k : ℝ) = b

/-- The exponent is an even integer. -/
def isEvenIntR (b : ℝ) : Prop := ∃ k : ℤ, ((2 * k : ℤ) : ℝ) = b

/-- The exponent is an odd integer. -/
def isOddIntR (b : ℝ) : Prop := ∃ k : ℤ, ((2 * k + 1 : ℤ) : ℝ) = b

/-- JS Math.pow following the ECMAScript specification on the modelled
values: pow (x, 0) = 1 for every x (including NaN); NaN in any other
position propagates; a finite negative base with a non-integer exponent
gives NaN; exponent infinities compare the absolute value of the base
with 1; an infinite base follows the sign of the exponent, with the sign
of the result determined by integer parity for a negative infinite base. -/
noncomputable def jpow (x y : JS) : JS :=
  if y = JS.fin 0 then .fin 1 else
  match x, y with
  | .nan, _ => .nan
  | _, .nan => .nan
  | .fin a, .fin b =>
      if 0 < a then .fin (a ^ b)
      else if a = 0 then (if 0 < b then .fin 0 else .inf true)
      else if isIntR b then
        (if isEvenIntR b then .fin (|a| ^ b) else .fin (-(|a| ^ b)))
      else .nan
  | .fin a, .inf s =>
      if |a| = 1 then .nan
      else if (s = true ∧ 1 < |a|) ∨ (s = false ∧ |a| < 1) then .inf true
      else .fin 0
  | .inf s, .fin b =>
      if 0 < b then
        (if s then .inf true else if isOddIntR b then .inf false else .inf true)
      else .fin 0
  | .inf _, .inf t => if t then .inf true else .fin 0

/-- JS strict equality `===` restricted to numbers: NaN is equal to
nothing, including itself. -/
def jeq : JS → JS → Prop
  | .fin a, .fin b => a = b
  | .inf s, .inf t => s = t
  | _, _ => False

/-- JS strict comparison `<`: any comparison involving NaN is false. -/
def jlt : JS → JS → Prop
  | .nan, _ => False
  | _, .nan => False
  | .fin a, .fin b => a < b
  | .fin _, .inf s => s = true
  | .inf s, .fin _ => s = false
  | .inf s, .inf t => s = false ∧ t = true

/-- JS comparison `<=`: any comparison involving NaN is false. -/
def jle : JS → JS → Prop
  | .nan, _ => False
  | _, .nan => False
  | .fin a, .fin b => a ≤ b
  | .fin _, .inf s => s = true
  | .inf s, .fin _ => s = false
  | .inf s, .inf t => s = t ∨ (s = false ∧ t = true)

/-- JS truthiness of a number: zero and NaN are falsy. -/
def jtruthy : JS → Prop
  | .fin a => a ≠ 0
  | .inf _ => True
  | .nan => False

/-- Models the JS idiom `v || 0` used to default falsy parse results. -/
noncomputable def jcoerce (x : JS) : JS := if jtruthy x then x else .fin 0

/- Simp lemmas evaluating the JS operations on constructors. -/

@[simp] theorem jneg_fin (a : ℝ) : jneg (.fin a) = .fin (-a) := rfl

@[simp] theorem jneg_inf (s : Bool) : jneg (.inf s) = .inf (!s) := rfl

@[simp] theorem jneg_nan : jneg .nan = .nan := rfl

@[simp] theorem jadd_fin_fin (a b : ℝ) : jadd (.fin a) (.fin b) = .fin (a + b) := rfl

@[simp] theorem jadd_nan_left (x : JS) : jadd .nan x = .nan := by cases x <;> rfl

@[simp] theorem jadd_nan_right (x : JS) : jadd x .nan = .nan := by
  cases x <;> rfl

@[simp] theorem jadd_fin_inf (a : ℝ) (s : Bool) : jadd (.fin a) (.inf s) = .inf s := rfl

@[simp] theorem jadd_inf_fin (a : ℝ) (s : Bool) : jadd (.inf s) (.fin a) = .inf s := rfl

@[simp] theorem jsub_fin_fin (a b : ℝ) : jsub (.fin a) (.fin b) = .fin (a - b) := by
  simp [jsub, sub_eq_add_neg]

@[simp] theorem jsub_nan_left (x : JS) : jsub .nan x = .nan := by
  cases x <;> rfl

@[simp] theorem jsub_nan_right (x : JS) : jsub x .nan = .nan := by
  cases x <;> rfl

@[simp] theorem jsub_fin_inf (a : ℝ) (s : Bool) : jsub (.fin a) (.inf s) = .inf (!s) := rfl

@[simp] theorem jmul_fin_fin (a b : ℝ) : jmul (.fin a) (.fin b) = .fin (a * b) := rfl

@[simp] theorem jmul_nan_left (x : JS) : jmul .nan x = .nan := by cases x <;> rfl

@[simp] theorem jmul_nan_right (x : JS) : jmul x .nan = .nan := by
  cases x <;> rfl

@[simp] theorem jdiv_nan_left (x : JS) : jdiv .nan x = .nan := by cases x <;> rfl

@[simp] theorem jdiv_nan_right (x : JS) : jdiv x .nan = .nan := by
  cases x <;> rfl

theorem jdiv_fin_fin {b : ℝ} (a : ℝ) (hb : b ≠ 0) :
    jdiv (.fin a) (.fin b) = .fin (a / b) := by
  simp [jdiv, hb]

@[simp] theorem jdiv_zero_zero : jdiv (.fin 0) (.fin 0) = .nan := by
  simp [jdiv]

theorem jdiv_fin_zero_pos {a : ℝ} (ha : 0 < a) :
    jdiv (.fin a) (.fin 0) = .inf true := by
  simp [jdiv, ha.ne.symm, ha]

theorem jdiv_fin_zero_neg {a : ℝ} (ha : a < 0) :
    jdiv (.fin a) (.fin 0) = .inf false := by
  simp [jdiv, ha.ne, not_lt.mpr ha.le]

@[simp] theorem jabs_fin (a : ℝ) : jabs (.fin a) = .fin |a| := rfl

@[simp] theorem jabs_nan : jabs .nan = .nan := rfl

@[simp] theorem jabs_inf (s : Bool) : jabs (.inf s) = .inf true := rfl

theorem jlog_pos {a : ℝ} (ha : 0 < a) : jlog (.fin a) = .fin (Real.log a) := by
  simp [jlog, ha]

theorem jlog_neg {a : ℝ} (ha : a < 0) : jlog (.fin a) = .nan := by
  simp [jlog, not_lt.mpr ha.le, ha.ne]

@[simp] theorem jlog_zero : jlog (.fin 0) = .inf false := by
  simp [jlog]

@[simp] theorem jlog_nan : jlog .nan = .nan := rfl

@[simp] theorem jlog_inf (s : Bool) : jlog (.inf s) = if s then .inf true else .nan := rfl

theorem jpow_exp_zero (x : JS) : jpow x (.fin 0) = .fin 1 := by
  simp [jpow]

theorem jpow_fin_pos {a b : ℝ} (ha : 0 < a) (hb : b ≠ 0) :
    jpow (.fin a) (.fin b) = .fin (a ^ b) := by
  simp [jpow, JS.fin.injEq, hb, ha]

theorem jpow_nan {y : JS} (hy : y ≠ .fin 0) : jpow .nan y = .nan := by
  cases y with
  | fin b =>
      have hb : b ≠ 0 := by intro h; exact hy (by simp [h])
      simp [jpow, JS.fin.injEq, hb]
  | inf s => simp [jpow]
  | nan => simp [jpow]

@[simp] theorem jeq_fin_fin (a b : ℝ) : jeq (.fin a) (.fin b) ↔ a = b := Iff.rfl

@[simp] theorem jeq_nan_left (x : JS) : ¬ jeq .nan x := by cases x <;> simp [jeq]

@[simp] theorem jeq_inf_fin (s : Bool) (a : ℝ) : ¬ jeq (.inf s) (.fin a) := by simp [jeq]

@[simp] theorem jlt_fin_fin (a b : ℝ) : jlt (.fin a) (.fin b) ↔ a < b := Iff.rfl

@[simp] theorem jlt_nan_left (x : JS) : ¬ jlt .nan x := by cases x <;> simp [jlt]

@[simp] theorem jlt_nan_right (x : JS) : ¬ jlt x .nan := by cases x <;> simp [jlt]

@[simp] theorem jlt_inf_fin (s : Bool) (a : ℝ) : jlt (.inf s) (.fin a) ↔ s = false := Iff.rfl

@[simp] theorem jle_fin_fin (a b : ℝ) : jle (.fin a) (.fin b) ↔ a ≤ b := Iff.rfl

@[simp] theorem jcoerce_fin (a : ℝ) : jcoerce (.fin a) = .fin a := by
  by_cases h : a = 0 <;> simp [jcoerce, jtruthy, h]

@[simp] theorem jcoerce_nan : jcoerce .nan = .fin 0 := by simp [jcoerce, jtruthy]

@[simp] theorem jcoerce_inf (s : Bool) : jcoerce (.inf s) = .inf s := by
  simp [jcoerce, jtruthy]

@[simp] theorem isFinite_fin (a : ℝ) : JS.isFinite (.fin a) := trivial

@[simp] theorem not_isFinite_nan : ¬ JS.isFinite .nan := fun h => h

@[simp] theorem not_isFinite_inf (s : Bool) : ¬ JS.isFinite (.inf s) := fun h => h

/-
  The TVM solver, transcribed from
  src/components/calculators/TimeValueMoneyCalculator.tsx.
-/

/-- Convergence threshold of the Newton-Raphson rate solver
(`const tolerance = 0.0000001`). -/
noncomputable def tolerance : ℝ := 0.0000001

/-- Iteration cap of the Newton-Raphson rate solver
(`const maxIterations = 100`). -/
def maxIterations : ℕ := 100

/-- Residual of the TVM equation evaluated by each loop iteration of
`calculateInterestRate`:
`pv * Math.pow(1 + rate, n) + pmt * ((Math.pow(1 + rate, n) - 1) / rate) - fv`. -/
noncomputable def nrF (n pv pmt fv r : JS) : JS :=
  jsub
    (jadd (jmul pv (jpow (jadd (.fin 1) r) n))
      (jmul pmt (jdiv (jsub (jpow (jadd (.fin 1) r) n) (.fin 1)) r)))
    fv

/-- Derivative of the TVM residual evaluated by each loop iteration of
`calculateInterestRate`:
`n * pv * Math.pow(1 + rate, n - 1)
  + pmt * (n * Math.pow(1 + rate, n - 1) / rate
            - (Math.pow(1 + rate, n) - 1) / (rate * rate))`. -/
noncomputable def nrDF (n pv pmt r : JS) : JS :=
  jadd (jmul (jmul n pv) (jpow (jadd (.fin 1) r) (jsub n (.fin 1))))
    (jmul pmt
      (jsub (jdiv (jmul n (jpow (jadd (.fin 1) r) (jsub n (.fin 1)))) r)
        (jdiv (jsub (jpow (jadd (.fin 1) r) n) (.fin 1)) (jmul r r))))

/-- One Newton-Raphson update `newRate = rate - f / df` as computed by the
loop body of `calculateInterestRate`. -/
noncomputable def nrStep (n pv pmt fv r : JS) : JS :=
  jsub r (jdiv (nrF n pv pmt fv r) (nrDF n pv pmt r))

/-- The sequence of Newton-Raphson iterates described by the
specification: the fixed seed `r₀ = 0.1` followed by the updates
`r_{k+1} = r_k - f(r_k) / f'(r_k)`. -/
noncomputable def nrSeq (n pv pmt fv : JS) : ℕ → JS
  | 0 => .fin 0.1
  | k + 1 => nrStep n pv pmt fv (nrSeq n pv pmt fv k)

/-- The convergence test of iteration `k`:
`Math.abs(newRate - rate) < tolerance` with `rate = r_k` and
`newRate = r_{k+1}`. -/
noncomputable def nrConv (n pv pmt fv : JS) (k : ℕ) : Prop :=
  jlt (jabs (jsub (nrSeq n pv pmt fv (k + 1)) (nrSeq n pv pmt fv k))) (.fin tolerance)

/-- The Newton-Raphson loop of `calculateInterestRate`, with the number
of remaining iterations as explicit fuel.  Each round computes the
residual, the derivative and the updated rate; on convergence it returns
`newRate * 100`, otherwise it continues with the updated rate, and when
the fuel is exhausted it returns `rate * 100`. -/
noncomputable def nrLoop (n pv pmt fv : JS) : ℕ → JS → JS
  | 0, r => jmul r (.fin 100)
  | i + 1, r =>
      let newR := nrStep n pv pmt fv r
      if jlt (jabs (jsub newR r)) (.fin tolerance) then jmul newR (.fin 100)
      else nrLoop n pv pmt fv i newR

/-- Transcription of `calculateInterestRate(n, pv, pmt, fv)`: runs the
Newton-Raphson loop for at most `maxIterations = 100` iterations from
the initial guess `rate = 0.1`. -/
noncomputable def calculateInterestRate (n pv pmt fv : JS) : JS :=
  nrLoop n pv pmt fv maxIterations (.fin 0.1)

/-- Transcription of `calculatePeriods(rate, pv, pmt, fv)`.  The `rate`
argument is a percentage; the zero-rate check precedes the division by
100, and the logarithmic branch depends on whether `pmt === 0`. -/
noncomputable def calculatePeriods (rate pv pmt fv : JS) : JS :=
  if jeq rate (.fin 0) then jdiv (jsub fv pv) pmt
  else if jeq pmt (.fin 0) then
    jdiv (jlog (jdiv fv pv)) (jlog (jadd (.fin 1) (jdiv rate (.fin 100))))
  else
    jdiv
      (jlog (jdiv (jadd (jmul fv (jdiv rate (.fin 100))) pmt)
        (jadd (jmul pv (jdiv rate (.fin 100))) pmt)))
      (jlog (jadd (.fin 1) (jdiv rate (.fin 100))))

/-- The five selectable unknowns of the TVM dispatch (`calculateVariable`). -/
inductive TVMTarget where
  | periods | rate | pv | pmt | fv

/-- Transcription of the `useEffect` dispatch.  The five raw arguments
are the `parseFloat` results of the five input fields; the dispatch
applies the `|| 0` coercions of lines 150-154 (with the rate divided by
100 before coercion), checks the guard of the selected branch, and
either computes the selected unknown or leaves the result `null`
(modelled as `none`).  The `periods` branch passes the raw parsed
percentage to `calculatePeriods`, exactly as the source does. -/
noncomputable def tvmDispatch (target : TVMTarget)
    (nRaw ratePctRaw pvRaw pmtRaw fvRaw : JS) : Option JS :=
  let n := jcoerce nRaw
  let rate := jcoerce (jdiv ratePctRaw (.fin 100))
  let pv := jcoerce pvRaw
  let pmt := jcoerce pmtRaw
  let fv := jcoerce fvRaw
  match target with
  | .periods =>
      if ¬ jeq rate (.fin 0) ∧ (¬ jeq pv (.fin 0) ∨ ¬ jeq pmt (.fin 0)) ∧ ¬ jeq fv (.fin 0)
      then some (calculatePeriods ratePctRaw pv pmt fv) else none
  | .rate =>
      if jlt (.fin 0) n ∧ (¬ jeq pv (.fin 0) ∨ ¬ jeq pmt (.fin 0)) ∧ ¬ jeq fv (.fin 0)
      then some (calculateInterestRate n pv pmt fv) else none
  | .pv =>
      if jlt (.fin 0) n ∧ ¬ jeq rate (.fin 0) ∧ ¬ jeq fv (.fin 0) then
        some (if jeq pmt (.fin 0) then jdiv fv (jpow (jadd (.fin 1) rate) n)
          else jdiv
            (jsub fv (jmul pmt (jdiv (jsub (jpow (jadd (.fin 1) rate) n) (.fin 1)) rate)))
            (jpow (jadd (.fin 1) rate) n))
      else none
  | .pmt =>
      if jlt (.fin 0) n ∧ ¬ jeq rate (.fin 0) ∧ (¬ jeq pv (.fin 0) ∨ ¬ jeq fv (.fin 0)) then
        some (jdiv (jsub fv (jmul pv (jpow (jadd (.fin 1) rate) n)))
          (jdiv (jsub (jpow (jadd (.fin 1) rate) n) (.fin 1)) rate))
      else none
  | .fv =>
      if jlt (.fin 0) n ∧ jle (.fin 0) rate then
        some (if jeq rate (.fin 0) then jadd pv (jmul pmt n)
          else jadd (jmul pv (jpow (jadd (.fin 1) rate) n))
            (jmul pmt (jdiv (jsub (jpow (jadd (.fin 1) rate) n) (.fin 1)) rate)))
      else none

/-- The guard condition of the branch selected by the dispatch, stated
on the same coerced values the dispatch computes. -/
def tvmGuard (target : TVMTarget) (nRaw ratePctRaw pvRaw pmtRaw fvRaw : JS) : Prop :=
  let n := jcoerce nRaw
  let rate := jcoerce (jdiv ratePctRaw (.fin 100))
  let pv := jcoerce pvRaw
  let pmt := jcoerce pmtRaw
  let fv := jcoerce fvRaw
  match target with
  | .periods => ¬ jeq rate (.fin 0) ∧ (¬ jeq pv (.fin 0) ∨ ¬ jeq pmt (.fin 0)) ∧ ¬ jeq fv (.fin 0)
  | .rate => jlt (.fin 0) n ∧ (¬ jeq pv (.fin 0) ∨ ¬ jeq pmt (.fin 0)) ∧ ¬ jeq fv (.fin 0)
  | .pv => jlt (.fin 0) n ∧ ¬ jeq rate (.fin 0) ∧ ¬ jeq fv (.fin 0)
  | .pmt => jlt (.fin 0) n ∧ ¬ jeq rate (.fin 0) ∧ (¬ jeq pv (.fin 0) ∨ ¬ jeq fv (.fin 0))
  | .fv => jlt (.fin 0) n ∧ jle (.fin 0) rate

/-
  Helper lemmas: correspondence of the fuelled loop with the iterate
  sequence, and propagation of non-finite values.
-/

theorem nrStep_eq_succ (n pv pmt fv : JS) (k : ℕ) :
    nrStep n pv pmt fv (nrSeq n pv pmt fv k) = nrSeq n pv pmt fv (k + 1) := rfl

theorem nrLoop_noConv (n pv pmt fv : JS) :
    ∀ (m k : ℕ), (∀ j, k ≤ j → j < k + m → ¬ nrConv n pv pmt fv j) →
    nrLoop n pv pmt fv m (nrSeq n pv pmt fv k) = jmul (nrSeq n pv pmt fv (k + m)) (.fin 100) := by
  intro m
  induction m with
  | zero => intro k _; rfl
  | succ i ih =>
      intro k hnc
      have hk : ¬ nrConv n pv pmt fv k := hnc k le_rfl (by omega)
      show (if jlt (jabs (jsub (nrStep n pv pmt fv (nrSeq n pv pmt fv k))
            (nrSeq n pv pmt fv k))) (.fin tolerance)
          then jmul (nrStep n pv pmt fv (nrSeq n pv pmt fv k)) (.fin 100)
          else nrLoop n pv pmt fv i (nrStep n pv pmt fv (nrSeq n pv pmt fv k))) = _
      have hk2 : ¬ jlt (jabs (jsub (nrSeq n pv pmt fv (k + 1)) (nrSeq n pv pmt fv k)))
          (.fin tolerance) := hk
      rw [nrStep_eq_succ, if_neg hk2]
      have := ih (k + 1) (fun j hj hj2 => hnc j (by omega) (by omega))
      rw [this]
      congr 2
      omega

theorem nrLoop_conv (n pv pmt fv : JS) :
    ∀ (i m k : ℕ), i < m → (∀ j, k ≤ j → j < k + i → ¬ nrConv n pv pmt fv j) →
    nrConv n pv pmt fv (k + i) →
    nrLoop n pv pmt fv m (nrSeq n pv pmt fv k) = jmul (nrSeq n pv pmt fv (k + i + 1)) (.fin 100) := by
  intro i
  induction i with
  | zero =>
      intro m k hm _ hc
      obtain ⟨m0, rfl⟩ : ∃ m0, m = m0 + 1 := ⟨m - 1, by omega⟩
      show (if jlt (jabs (jsub (nrStep n pv pmt fv (nrSeq n pv pmt fv k))
            (nrSeq n pv pmt fv k))) (.fin tolerance)
          then jmul (nrStep n pv pmt fv (nrSeq n pv pmt fv k)) (.fin 100)
          else nrLoop n pv pmt fv m0 (nrStep n pv pmt fv (nrSeq n pv pmt fv k))) = _
      have hc2 : jlt (jabs (jsub (nrSeq n pv pmt fv (k + 1)) (nrSeq n pv pmt fv k)))
          (.fin tolerance) := hc
      rw [nrStep_eq_succ, if_pos hc2]
  | succ i ih =>
      intro m k hm hnc hc
      obtain ⟨m0, rfl⟩ : ∃ m0, m = m0 + 1 := ⟨m - 1, by omega⟩
      have hk : ¬ nrConv n pv pmt fv k := hnc k le_rfl (by omega)
      show (if jlt (jabs (jsub (nrStep n pv pmt fv (nrSeq n pv pmt fv k))
            (nrSeq n pv pmt fv k))) (.fin tolerance)
          then jmul (nrStep n pv pmt fv (nrSeq n pv pmt fv k)) (.fin 100)
          else nrLoop n pv pmt fv m0 (nrStep n pv pmt fv (nrSeq n pv pmt fv k))) = _
      have hk2 : ¬ jlt (jabs (jsub (nrSeq n pv pmt fv (k + 1)) (nrSeq n pv pmt fv k)))
          (.fin tolerance) := hk
      rw [nrStep_eq_succ, if_neg hk2]
      have := ih m0 (k + 1) (by omega) (fun j hj hj2 => hnc j (by omega) (by omega))
        (by have : k + 1 + i = k + (i + 1) := by omega
            rw [this]; exact hc)
      rw [this]
      congr 2
      omega

theorem jsub_nonfinite_right {y : JS} (x : JS) (hy : ¬ y.isFinite) :
    ¬ (jsub x y).isFinite := by
  cases y with
  | fin a => exact absurd trivial hy
  | inf s =>
      cases x with
      | fin a => simp [jsub, jadd, jneg, JS.isFinite]
      | inf t => by_cases h : t = !s <;> simp [jsub, jadd, jneg, h, JS.isFinite]
      | nan => simp [JS.isFinite]
  | nan => cases x <;> simp [jsub, jadd, jneg, JS.isFinite]

theorem jsub_nonfinite_left {x : JS} (y : JS) (hx : ¬ x.isFinite) :
    ¬ (jsub x y).isFinite := by
  cases x with
  | fin a => exact absurd trivial hx
  | inf s =>
      cases y with
      | fin a => simp [jsub, jadd, jneg, JS.isFinite]
      | inf t => by_cases hst : s = !t <;> simp [jsub, jadd, jneg, hst, JS.isFinite]
      | nan => simp [JS.isFinite]
  | nan => simp [JS.isFinite]

theorem jdiv_by_fin_zero_nonfinite (x : JS) : ¬ (jdiv x (.fin 0)).isFinite := by
  cases x with
  | fin a =>
      rcases lt_trichotomy a 0 with h | h | h
      · rw [jdiv_fin_zero_neg h]; simp
      · subst h; simp
      · rw [jdiv_fin_zero_pos h]; simp
  | inf s => simp [jdiv, JS.isFinite]
  | nan => simp

theorem jdiv_inf_left_nonfinite (s : Bool) (y : JS) : ¬ (jdiv (.inf s) y).isFinite := by
  cases y with
  | fin b =>
      by_cases hb : b = 0
      · subst hb; simp [jdiv, JS.isFinite]
      · by_cases hb2 : 0 < b <;> simp [jdiv, hb, hb2, JS.isFinite]
  | inf t => simp [jdiv, JS.isFinite]
  | nan => simp

theorem jmul_nonfinite_fin_pos {x : JS} {a : ℝ} (hx : ¬ x.isFinite) (ha : 0 < a) :
    ¬ (jmul x (.fin a)).isFinite := by
  cases x with
  | fin b => exact absurd trivial hx
  | inf s => simp [jmul, ha.ne.symm, ha, JS.isFinite]
  | nan => simp

theorem jlt_abs_nonfinite {x : JS} (hx : ¬ x.isFinite) (c : ℝ) :
    ¬ jlt (jabs x) (.fin c) := by
  cases x with
  | fin a => exact absurd trivial hx
  | inf s => simp [jabs, jlt]
  | nan => simp

theorem nrStep_nonfinite {n pv pmt fv r : JS} (hr : ¬ r.isFinite) :
    ¬ (nrStep n pv pmt fv r).isFinite :=
  jsub_nonfinite_left _ hr

theorem nrSeq_nonfinite_mono (n pv pmt fv : JS) {k m : ℕ}
    (hk : ¬ (nrSeq n pv pmt fv k).isFinite) (hkm : k ≤ m) :
    ¬ (nrSeq n pv pmt fv m).isFinite := by
  induction m with
  | zero =>
      have : k = 0 := by omega
      subst this; exact hk
  | succ i ih =>
      rcases Nat.lt_or_ge k (i + 1) with h | h
      · have : ¬ (nrSeq n pv pmt fv i).isFinite := ih (by omega)
        exact nrStep_nonfinite this
      · have : k = i + 1 := by omega
        subst this; exact hk

theorem noConv_of_nonfinite_succ {n pv pmt fv : JS} {j : ℕ}
    (h : ¬ (nrSeq n pv pmt fv (j + 1)).isFinite) : ¬ nrConv n pv pmt fv j :=
  jlt_abs_nonfinite (jsub_nonfinite_left _ h) _

/-
  The claims.
-/

/-- C1: for every input, `calculateInterestRate` performs the
Newton-Raphson iteration `r_{k+1} = r_k - f(r_k) / f'(r_k)` from the
fixed seed `r₀ = 0.1`, with the residual `nrF` and its analytic
derivative `nrDF`, and at the first iteration `k` whose convergence test
`|r_{k+1} - r_k| < 1e-7` succeeds it stops and returns `r_{k+1} * 100`,
the rate as a percentage. -/
theorem rateSolver_first_convergence (n pv pmt fv : JS) (k : ℕ) (hk : k < 100)
    (hpre : ∀ j < k, ¬ nrConv n pv pmt fv j) (hc : nrConv n pv pmt fv k) :
    calculateInterestRate n pv pmt fv = jmul (nrSeq n pv pmt fv (k + 1)) (.fin 100) := by
  have h := nrLoop_conv n pv pmt fv k 100 0 hk
    (fun j hj hj2 => hpre j (by omega))
    (by rw [Nat.zero_add]; exact hc)
  rw [Nat.zero_add] at h
  exact h

theorem rateSolver_first_convergence_aux :
    nrSeq (.fin 1) (.fin 1) (.fin 0) (.fin 1.1) 1 = .fin 0.1 := by
  show nrStep (.fin 1) (.fin 1) (.fin 0) (.fin 1.1) (.fin 0.1) = .fin 0.1
  norm_num [nrStep, nrF, nrDF, jpow_exp_zero, jpow_fin_pos, jdiv_fin_fin, Real.rpow_one]

/-- Witness for C1: for n = 1, pv = 1, pmt = 0, fv = 1.1 the residual at
the seed is already zero, the convergence test succeeds at the very
first iteration, and the solver returns 0.1 * 100 = 10 percent. -/
theorem rateSolver_first_convergence_witness :
    nrConv (.fin 1) (.fin 1) (.fin 0) (.fin 1.1) 0 ∧
    calculateInterestRate (.fin 1) (.fin 1) (.fin 0) (.fin 1.1) = .fin 10 := by
  have hc : nrConv (.fin 1) (.fin 1) (.fin 0) (.fin 1.1) 0 := by
    unfold nrConv
    rw [rateSolver_first_convergence_aux]
    show jlt (jabs (jsub (JS.fin 0.1) (.fin 0.1))) (.fin tolerance)
    norm_num [tolerance]
  refine ⟨hc, ?_⟩
  rw [rateSolver_first_convergence (.fin 1) (.fin 1) (.fin 0) (.fin 1.1) 0 (by norm_num)
    (fun j hj => absurd hj (Nat.not_lt_zero j)) hc]
  rw [rateSolver_first_convergence_aux]
  norm_num

/-- C2: every invocation of `calculateInterestRate` terminates — the
model is a total function whose loop is bounded by the fuel
`maxIterations = 100` — and when the convergence test fails at all 100
iterations, the solver returns the last computed iterate `r₁₀₀`
multiplied by 100, a plain `JS` number with no error indicator,
exactly like the converged case. -/
theorem rateSolver_cap_fallback (n pv pmt fv : JS)
    (h : ∀ j < 100, ¬ nrConv n pv pmt fv j) :
    calculateInterestRate n pv pmt fv = jmul (nrSeq n pv pmt fv 100) (.fin 100) := by
  have h2 := nrLoop_noConv n pv pmt fv 100 0 (fun j hj hj2 => h j (by omega))
  rw [Nat.zero_add] at h2
  exact h2

theorem rateSolver_cap_fallback_aux :
    nrSeq (.fin 0) (.fin 1) (.fin 0) (.fin 1) 1 = .nan := by
  show nrStep (.fin 0) (.fin 1) (.fin 0) (.fin 1) (.fin 0.1) = .nan
  norm_num [nrStep, nrF, nrDF, jpow_exp_zero, jpow_fin_pos, jdiv_fin_fin]

theorem rateSolver_cap_fallback_aux2 :
    ∀ j < 100, ¬ nrConv (.fin 0) (.fin 1) (.fin 0) (.fin 1) j := by
  intro j hj
  apply noConv_of_nonfinite_succ
  apply nrSeq_nonfinite_mono (.fin 0) (.fin 1) (.fin 0) (.fin 1)
    (k := 1) (by rw [rateSolver_cap_fallback_aux]; simp) (by omega)

/-- Witness for C2: for n = 0, pv = 1, pmt = 0, fv = 1 both the residual
and the derivative are zero at the seed, the first update is 0 / 0 = NaN,
every convergence test fails (NaN comparisons are false), and after 100
iterations the solver returns the last iterate times 100. -/
theorem rateSolver_cap_fallback_witness :
    (∀ j < 100, ¬ nrConv (.fin 0) (.fin 1) (.fin 0) (.fin 1) j) ∧
    calculateInterestRate (.fin 0) (.fin 1) (.fin 0) (.fin 1) =
      jmul (nrSeq (.fin 0) (.fin 1) (.fin 0) (.fin 1) 100) (.fin 100) :=
  ⟨rateSolver_cap_fallback_aux2,
    rateSolver_cap_fallback (.fin 0) (.fin 1) (.fin 0) (.fin 1) rateSolver_cap_fallback_aux2⟩

/-- C8: if the loop of `calculateInterestRate` reaches an iteration
whose derivative `nrDF` evaluates to 0, then the unguarded division
`f / df` of that iteration is non-finite, and the value the solver
finally returns to its caller is non-finite as well — the condition is
neither detected nor recovered from. -/
theorem rateSolver_zero_derivative_nonfinite (n pv pmt fv : JS) (k : ℕ) (hk : k < 100)
    (hpre : ∀ j < k, ¬ nrConv n pv pmt fv j)
    (hdf : nrDF n pv pmt (nrSeq n pv pmt fv k) = .fin 0) :
    ¬ (jdiv (nrF n pv pmt fv (nrSeq n pv pmt fv k))
        (nrDF n pv pmt (nrSeq n pv pmt fv k))).isFinite ∧
    ¬ (calculateInterestRate n pv pmt fv).isFinite := by
  have hquot : ¬ (jdiv (nrF n pv pmt fv (nrSeq n pv pmt fv k))
      (nrDF n pv pmt (nrSeq n pv pmt fv k))).isFinite := by
    rw [hdf]; exact jdiv_by_fin_zero_nonfinite _
  have hsucc : ¬ (nrSeq n pv pmt fv (k + 1)).isFinite :=
    jsub_nonfinite_right _ hquot
  have hnc : ∀ j < 100, ¬ nrConv n pv pmt fv j := by
    intro j hj
    rcases Nat.lt_or_ge j k with h | h
    · exact hpre j h
    · exact noConv_of_nonfinite_succ
        (nrSeq_nonfinite_mono n pv pmt fv hsucc (by omega))
  have hloop := nrLoop_noConv n pv pmt fv 100 0 (fun j hj hj2 => hnc j (by omega))
  rw [Nat.zero_add] at hloop
  refine ⟨hquot, ?_⟩
  have hres : calculateInterestRate n pv pmt fv = jmul (nrSeq n pv pmt fv 100) (.fin 100) :=
    hloop
  rw [hres]
  exact jmul_nonfinite_fin_pos (nrSeq_nonfinite_mono n pv pmt fv hsucc (by omega)) (by norm_num)

theorem rateSolver_zero_derivative_aux :
    nrDF (.fin 0) (.fin 2) (.fin 0) (nrSeq (.fin 0) (.fin 2) (.fin 0) (.fin 5) 0) = .fin 0 := by
  show nrDF (.fin 0) (.fin 2) (.fin 0) (.fin 0.1) = .fin 0
  norm_num [nrDF, jpow_exp_zero, jpow_fin_pos, jdiv_fin_fin]

/-- Witness for C8: for n = 0, pv = 2, pmt = 0, fv = 5 the derivative at
the seed is exactly zero, and the solver output is non-finite. -/
theorem rateSolver_zero_derivative_nonfinite_witness :
    nrDF (.fin 0) (.fin 2) (.fin 0) (nrSeq (.fin 0) (.fin 2) (.fin 0) (.fin 5) 0) = .fin 0 ∧
    ¬ (calculateInterestRate (.fin 0) (.fin 2) (.fin 0) (.fin 5)).isFinite :=
  ⟨rateSolver_zero_derivative_aux,
    (rateSolver_zero_derivative_nonfinite (.fin 0) (.fin 2) (.fin 0) (.fin 5) 0 (by norm_num)
      (fun j hj => absurd hj (Nat.not_lt_zero j)) rateSolver_zero_derivative_aux).2⟩

/-- C4: when the period solver is called with rate 0 and a nonzero
payment, it returns the linear solution (fv - pv) / pmt. -/
theorem periods_zero_rate_linear (pv pmt fv : ℝ) (hpmt : pmt ≠ 0) :
    calculatePeriods (.fin 0) (.fin pv) (.fin pmt) (.fin fv) = .fin ((fv - pv) / pmt) := by
  unfold calculatePeriods
  rw [if_pos (show jeq (JS.fin 0) (.fin 0) from rfl), jsub_fin_fin, jdiv_fin_fin _ hpmt]

/-- Witness for C4: rate 0, pv = 1000, pmt = 100, fv = 2000 gives
(2000 - 1000) / 100 = 10 periods. -/
theorem periods_zero_rate_linear_witness :
    (100 : ℝ) ≠ 0 ∧
    calculatePeriods (.fin 0) (.fin 1000) (.fin 100) (.fin 2000) = .fin 10 := by
  refine ⟨by norm_num, ?_⟩
  rw [periods_zero_rate_linear 1000 100 2000 (by norm_num)]
  norm_num

/-- C9: every solve function of the model is deterministic.  The source
functions keep no state across invocations (`rate` is a local of the
loop, and the component recomputes from scratch on every input change),
which the embedding reflects by being a pure function of its arguments:
two invocations with identical arguments are definitionally equal. -/
theorem solvers_deterministic (t : TVMTarget) (n rate pv pmt fv : JS) :
    calculateInterestRate n pv pmt fv = calculateInterestRate n pv pmt fv ∧
    calculatePeriods rate pv pmt fv = calculatePeriods rate pv pmt fv ∧
    tvmDispatch t n rate pv pmt fv = tvmDispatch t n rate pv pmt fv :=
  ⟨rfl, rfl, rfl⟩

theorem jlog_inf_true : jlog (.inf true) = .inf true := by simp [jlog]

theorem jlog_inf_false : jlog (.inf false) = .nan := by simp [jlog]

/-- C6: whenever the period solver runs with a nonzero rate, a zero
payment and a ratio fv / pv that is not strictly positive (including the
cases pv = 0, where the JS quotient is an infinity or NaN), the
logarithm leaves its domain and the solver yields a non-finite value,
never a finite fabricated period count. -/
theorem periods_log_domain_failure_nonfinite (r pv fv : ℝ) (hr : r ≠ 0)
    (hratio : fv / pv ≤ 0) :
    ¬ (calculatePeriods (.fin r) (.fin pv) (.fin 0) (.fin fv)).isFinite := by
  unfold calculatePeriods
  rw [if_neg (show ¬ jeq (JS.fin r) (.fin 0) from hr),
    if_pos (show jeq (JS.fin 0) (.fin 0) from rfl)]
  by_cases hpv : pv = 0
  · subst hpv
    rcases lt_trichotomy fv 0 with h | h | h
    · rw [jdiv_fin_zero_neg h, jlog_inf_false]; simp
    · subst h; simp
    · rw [jdiv_fin_zero_pos h, jlog_inf_true]
      exact jdiv_inf_left_nonfinite true _
  · rw [jdiv_fin_fin _ hpv]
    rcases lt_or_eq_of_le hratio with h | h
    · rw [jlog_neg h]; simp
    · rw [h, jlog_zero]
      exact jdiv_inf_left_nonfinite false _

/-- Witness for C6: pv = 1000, fv = -500, pmt = 0, rate 5 percent makes
the ratio negative and the solver output non-finite. -/
theorem periods_log_domain_failure_nonfinite_witness :
    ((5 : ℝ) ≠ 0 ∧ (-500 : ℝ) / 1000 ≤ 0) ∧
    ¬ (calculatePeriods (.fin 5) (.fin 1000) (.fin 0) (.fin (-500))).isFinite :=
  ⟨⟨by norm_num, by norm_num⟩,
    periods_log_domain_failure_nonfinite 5 1000 (-500) (by norm_num) (by norm_num)⟩

/-- C3: round-trip consistency from the future value to the period
count.  For n > 0 and r ≠ 0 with the domain preconditions holding
(1 + r positive and the logarithm argument pv * r + pmt strictly
positive), computing fv by the closed-form formula and feeding the
percentage rate, pv, pmt and that fv to `calculatePeriods` recovers n
exactly over real arithmetic, in both the zero-payment and the
with-payment branch. -/
theorem periods_roundtrip_fv (n r pv pmt : ℝ) (_hn : 0 < n) (hr : r ≠ 0)
    (hb : 0 < 1 + r) (harg : 0 < pv * r + pmt) :
    calculatePeriods (.fin (100 * r)) (.fin pv) (.fin pmt)
      (.fin (pv * (1 + r) ^ n + pmt * (((1 + r) ^ n - 1) / r))) = .fin n := by
  have hX : (0 : ℝ) < (1 + r) ^ n := Real.rpow_pos_of_pos hb n
  have hlog : Real.log (1 + r) ≠ 0 := by
    intro h
    rcases Real.log_eq_zero.mp h with h1 | h1 | h1
    · linarith
    · exact hr (by linarith)
    · linarith
  have hrate : jdiv (JS.fin (100 * r)) (.fin 100) = .fin r := by
    rw [jdiv_fin_fin _ (by norm_num : (100 : ℝ) ≠ 0)]
    congr 1
    field_simp
  unfold calculatePeriods
  rw [if_neg (show ¬ jeq (JS.fin (100 * r)) (.fin 0) from fun h => hr (by
    have h2 : (100 : ℝ) * r = 0 := h
    linarith))]
  by_cases hp : pmt = 0
  · subst hp
    rw [if_pos (show jeq (JS.fin 0) (.fin 0) from rfl), hrate]
    have hpv : pv ≠ 0 := by
      intro h
      rw [h] at harg
      norm_num at harg
    rw [jdiv_fin_fin _ hpv,
      show (pv * (1 + r) ^ n + 0 * (((1 + r) ^ n - 1) / r)) / pv = (1 + r) ^ n from by
        field_simp,
      jlog_pos hX, jadd_fin_fin, jlog_pos hb, jdiv_fin_fin _ hlog, Real.log_rpow hb]
    congr 1
    rw [mul_div_assoc, div_self hlog, mul_one]
  · rw [if_neg (show ¬ jeq (JS.fin pmt) (.fin 0) from hp), hrate,
      jmul_fin_fin, jmul_fin_fin, jadd_fin_fin, jadd_fin_fin,
      jdiv_fin_fin _ harg.ne',
      show ((pv * (1 + r) ^ n + pmt * (((1 + r) ^ n - 1) / r)) * r + pmt) / (pv * r + pmt)
          = (1 + r) ^ n from by
        rw [div_eq_iff harg.ne']
        field_simp
        ring,
      jlog_pos hX, jadd_fin_fin, jlog_pos hb, jdiv_fin_fin _ hlog, Real.log_rpow hb]
    congr 1
    rw [mul_div_assoc, div_self hlog, mul_one]

/-- Witness for C3: n = 2, r = 5 percent, pv = 1000, pmt = 0. -/
theorem periods_roundtrip_fv_witness :
    ((0 : ℝ) < 2 ∧ (0.05 : ℝ) ≠ 0 ∧ (0 : ℝ) < 1 + 0.05 ∧ (0 : ℝ) < 1000 * 0.05 + 0) ∧
    calculatePeriods (.fin (100 * 0.05)) (.fin 1000) (.fin 0)
      (.fin (1000 * (1 + 0.05) ^ (2 : ℝ) + 0 * (((1 + 0.05) ^ (2 : ℝ) - 1) / 0.05))) =
      .fin 2 :=
  ⟨⟨by norm_num, by norm_num, by norm_num, by norm_num⟩,
    periods_roundtrip_fv 2 0.05 1000 0 (by norm_num) (by norm_num) (by norm_num) (by norm_num)⟩

/-- C5: the future-value branch of the dispatch.  For n > 0, the result
is pv + pmt * n when the decimal rate is zero, and the closed-form
compound formula when the rate is positive — a direct evaluation with no
iteration.  The rate argument of the dispatch is the percentage
100 * r. -/
theorem dispatch_fv_closed_form (ν r pv pmt fv : ℝ) (hn : 0 < ν) :
    (r = 0 → tvmDispatch .fv (.fin ν) (.fin (100 * r)) (.fin pv) (.fin pmt) (.fin fv) =
      some (.fin (pv + pmt * ν))) ∧
    (0 < r → tvmDispatch .fv (.fin ν) (.fin (100 * r)) (.fin pv) (.fin pmt) (.fin fv) =
      some (.fin (pv * (1 + r) ^ ν + pmt * (((1 + r) ^ ν - 1) / r)))) := by
  have hdiv : jdiv (JS.fin (100 * r)) (.fin 100) = .fin r := by
    rw [jdiv_fin_fin _ (by norm_num : (100 : ℝ) ≠ 0)]
    congr 1
    field_simp
  constructor
  · intro h0
    subst h0
    simp only [tvmDispatch, hdiv, jcoerce_fin]
    rw [if_pos ⟨show jlt (JS.fin 0) (.fin ν) from hn, show jle (JS.fin 0) (.fin 0) from le_rfl⟩,
      if_pos (show jeq (JS.fin 0) (.fin 0) from rfl)]
    simp
  · intro hrpos
    have hb : (0 : ℝ) < 1 + r := by linarith
    simp only [tvmDispatch, hdiv, jcoerce_fin]
    rw [if_pos ⟨show jlt (JS.fin 0) (.fin ν) from hn, show jle (JS.fin 0) (.fin r) from hrpos.le⟩,
      if_neg (show ¬ jeq (JS.fin r) (.fin 0) from hrpos.ne')]
    rw [jadd_fin_fin]
    simp only [jpow_fin_pos hb hn.ne']
    rw [jsub_fin_fin, jdiv_fin_fin _ hrpos.ne']
    simp only [jmul_fin_fin, jadd_fin_fin]

/-- Witness for C5: n = 10, rate 0, pv = 1000, pmt = 100 produce exactly
2000 through the dispatch. -/
theorem dispatch_fv_closed_form_witness :
    (0 : ℝ) < 10 ∧
    tvmDispatch .fv (.fin 10) (.fin (100 * 0)) (.fin 1000) (.fin 100) (.fin 0) =
      some (.fin 2000) := by
  refine ⟨by norm_num, ?_⟩
  rw [(dispatch_fv_closed_form 10 0 1000 100 0 (by norm_num)).1 rfl]
  norm_num

/-- C7 (amended): the dispatch is a total function — no exception
escapes — and its output is either a single number or the null sentinel;
whenever the guard condition of the selected branch fails, the output is
exactly the null sentinel.  The original claim further asserted that a
delivered number is always finite; that part is refuted by
`dispatch_delivers_nonfinite` below, so it is dropped. -/
theorem dispatch_guard_fail_null (t : TVMTarget) (n r pv pmt fv : JS)
    (h : ¬ tvmGuard t n r pv pmt fv) :
    tvmDispatch t n r pv pmt fv = none := by
  cases t <;>
    · simp only [tvmDispatch]
      exact if_neg (fun hc => h hc)

/-- Witness for C7 as amended: solving for pv with a zero entered rate
fails the guard, and the dispatch yields the null sentinel. -/
theorem dispatch_guard_fail_null_witness :
    ¬ tvmGuard .pv (.fin 10) (.fin 0) (.fin 0) (.fin 0) (.fin 2000) ∧
    tvmDispatch .pv (.fin 10) (.fin 0) (.fin 0) (.fin 0) (.fin 2000) = none := by
  have hg : ¬ tvmGuard .pv (.fin 10) (.fin 0) (.fin 0) (.fin 0) (.fin 2000) := by
    intro hcond
    exact hcond.2.1 (by norm_num [jdiv_fin_fin])
  exact ⟨hg, dispatch_guard_fail_null .pv (.fin 10) (.fin 0) (.fin 0) (.fin 0) (.fin 2000) hg⟩

/-- Counterexample to C7 as stated: with the selector periods and inputs
rate 5 percent, pv 1000, pmt 0, fv -500 the guard passes, the logarithm
of a negative ratio is NaN, and the dispatch delivers the non-finite
number NaN as its result instead of a finite number or the null
sentinel. -/
theorem dispatch_delivers_nonfinite :
    tvmDispatch .periods (.fin 0) (.fin 5) (.fin 1000) (.fin 0) (.fin (-500)) = some .nan ∧
    ¬ JS.isFinite .nan := by
  refine ⟨?_, by simp⟩
  have hres : calculatePeriods (.fin 5) (.fin 1000) (.fin 0) (.fin (-500)) = .nan := by
    unfold calculatePeriods
    rw [if_neg (show ¬ jeq (JS.fin 5) (.fin 0) from by norm_num),
      if_pos (show jeq (JS.fin 0) (.fin 0) from rfl),
      jdiv_fin_fin _ (by norm_num : (1000 : ℝ) ≠ 0),
      show ((-500 : ℝ) / 1000) = (-0.5 : ℝ) from by norm_num,
      jlog_neg (by norm_num : (-0.5 : ℝ) < 0)]
    simp
  simp only [tvmDispatch]
  rw [jdiv_fin_fin _ (by norm_num : (100 : ℝ) ≠ 0)]
  simp only [jcoerce_fin]
  rw [if_pos ⟨by norm_num, Or.inl (by norm_num), by norm_num⟩, hres]

/-- C10: through the public dispatch the zero-rate linear branch of
`calculatePeriods` is unreachable — an entered rate of zero (or NaN from
a failed parse) makes the periods guard fail and the dispatch yield the
null sentinel, and whenever the dispatch does produce a result the raw
percentage passed to `calculatePeriods` fails the `rate === 0` test of
the linear branch. -/
theorem dispatch_periods_zero_rate_branch_unreachable (n ratePct pv pmt fv : JS) :
    ((ratePct = .fin 0 ∨ ratePct = .nan) →
      tvmDispatch .periods n ratePct pv pmt fv = none) ∧
    (tvmDispatch .periods n ratePct pv pmt fv ≠ none → ¬ jeq ratePct (.fin 0)) := by
  have hz : tvmDispatch .periods n (.fin 0) pv pmt fv = none := by
    simp only [tvmDispatch]
    rw [jdiv_fin_fin _ (by norm_num : (100 : ℝ) ≠ 0)]
    rw [if_neg (fun hcond => hcond.1 (by norm_num))]
  have hnan : tvmDispatch .periods n .nan pv pmt fv = none := by
    simp only [tvmDispatch, jdiv_nan_left, jcoerce_nan]
    rw [if_neg (fun hcond => hcond.1 (by norm_num))]
  constructor
  · rintro (rfl | rfl)
    · exact hz
    · exact hnan
  · intro hne heq
    have : ratePct = .fin 0 := by
      cases ratePct with
      | fin a =>
          have : a = 0 := heq
          rw [this]
      | inf s => exact absurd heq (by simp)
      | nan => exact absurd heq (by simp)
    subst this
    exact hne hz

/-- Witness for C10: a zero entered rate yields the null sentinel from
the periods dispatch. -/
theorem dispatch_periods_zero_rate_branch_unreachable_witness :
    tvmDispatch .periods (.fin 10) (.fin 0) (.fin 1000) (.fin 100) (.fin 2000) = none :=
  (dispatch_periods_zero_rate_branch_unreachable (.fin 10) (.fin 0) (.fin 1000) (.fin 100)
    (.fin 2000)).1 (Or.inl rfl)

end TVMCalc
